import Mathlib

/-!
Verification of the Whisper inference driver (CTranslate2 Whisper model
implementation, `models/whisper.cc` and its Python binding).

The development embeds the driver's pure control logic in Lean:

* prompt analysis (`get_sot_index`, `get_prompt_length`, `check_prompts`),
* the prefill / start-token split performed by `WhisperReplica::generate`,
* the expansion of the `suppress_tokens` option,
* the `ApplyTimestampRules` logits processor (token-disabling phases and the
  timestamp-probability mass check),
* the `GetNoSpeechProbs` logits processor and the eager no-speech-probability
  extraction path,
* `WhisperReplica::detect_language`,
* the assembly of `WhisperGenerationResult` values.

Tensor primitives (softmax, log-softmax, gather, max, logsumexp) and the
decoder itself are external collaborators of the driver; they are modelled by
real-valued functions.  Floating-point arithmetic is modelled over `ℝ`, with
`WithBot ℝ` standing for log-probabilities that may be `-inf` after masking.
-/

namespace Whisper

/-- Tokens disabled by a C++ loop `for (i = a; i < b; ++i)`. -/
def rangeIco (a b : ℕ) : List ℕ := (List.range (b - a)).map (a + ·)

/-- Tokens disabled by a C++ loop `for (i = a; i <= b; ++i)`. -/
def rangeIcc (a b : ℕ) : List ℕ := (List.range (b + 1 - a)).map (a + ·)

/-! ## Prompt analysis (`get_sot_index`, `get_prompt_length`, `check_prompts`) -/

/-- Error message of `get_sot_index`. -/
def msgNoSot : String := "startoftranscript token was not found in the prompt"

/-- Error message for mismatched SOT positions. -/
def msgSotPos : String := "The generate method currently requires the startoftranscript token to be at the same position in all batches."

/-- Error message for mismatched prompt lengths. -/
def msgTaskTokens : String := "The generate method currently requires each batch to have the same number of task tokens after startoftranscript."

/-- `std::distance(prompt.begin(), std::find(prompt.begin(), prompt.end(), sot_id))`:
index of the first occurrence of `sot_id`, or the length of the prompt. -/
def sotIndex (sot_id : ℕ) : List ℕ → ℕ
  | [] => 0
  | t :: rest => if t = sot_id then 0 else sotIndex sot_id rest + 1

/-- `get_sot_index`: position of the first occurrence of the SOT token in the
prompt; throws `invalid_argument` when the prompt has no SOT token. -/
def get_sot_index (prompt : List ℕ) (sot_id : ℕ) : Except String ℕ :=
  if sot_id ∈ prompt then .ok (sotIndex sot_id prompt)
  else .error msgNoSot

/-- Fuel-indexed form of the `get_prompt_length` while loop; the wrapper below
supplies enough fuel that running out coincides with the bounds check
failing. -/
def promptLengthAux (prompt : List ℕ) (sot_id no_timestamps_id : ℕ) :
    (fuel index : ℕ) → ℕ
  | 0, index => index
  | fuel + 1, index =>
    if index < prompt.length ∧
        sot_id ≤ prompt.getD index 0 ∧ prompt.getD index 0 ≤ no_timestamps_id then
      promptLengthAux prompt sot_id no_timestamps_id fuel (index + 1)
    else
      index

/-- The while loop of `get_prompt_length`: starting from `index`, advance while
the current token is inside the task-control range `[sot_id, no_timestamps_id]`
and the index is in bounds. -/
def promptLengthFrom (prompt : List ℕ) (sot_id no_timestamps_id : ℕ) (index : ℕ) : ℕ :=
  promptLengthAux prompt sot_id no_timestamps_id (prompt.length - index) index

/-- `get_prompt_length`: the sot index, then skip the task-control tokens. -/
def get_prompt_length (prompt : List ℕ) (sot_id no_timestamps_id : ℕ) : Except String ℕ :=
  match get_sot_index prompt sot_id with
  | .error e => .error e
  | .ok i => .ok (promptLengthFrom prompt sot_id no_timestamps_id i)

/-- The tail of the `check_prompts` loop once the first prompt fixed the
reference pair `(sot_index, prompt_length)`. -/
def check_prompts_from (sot_id no_timestamps_id sot_index prompt_length : ℕ) :
    List (List ℕ) → Except String (ℕ × ℕ)
  | [] => .ok (sot_index, prompt_length)
  | prompt :: rest =>
    match get_sot_index prompt sot_id with
    | .error e => .error e
    | .ok batch_sot_index =>
      let batch_prompt_length := promptLengthFrom prompt sot_id no_timestamps_id batch_sot_index
      if batch_sot_index ≠ sot_index then
        .error msgSotPos
      else if batch_prompt_length ≠ prompt_length then
        .error msgTaskTokens
      else
        check_prompts_from sot_id no_timestamps_id sot_index prompt_length rest

/-- `check_prompts`: validates the batch and returns the common
`(sot_index, prompt_length)` pair.  An empty batch leaves the caller's
initial values `(0, 0)` untouched (the caller returns early in that case). -/
def check_prompts (sot_id no_timestamps_id : ℕ) :
    List (List ℕ) → Except String (ℕ × ℕ)
  | [] => .ok (0, 0)
  | prompt :: rest =>
    match get_sot_index prompt sot_id with
    | .error e => .error e
    | .ok sot_index =>
      check_prompts_from sot_id no_timestamps_id sot_index
        (promptLengthFrom prompt sot_id no_timestamps_id sot_index) rest

/-- The `(sot_index, prompt_length)` pair computed for one prompt (total
version, meaningful when the prompt contains the SOT token). -/
def promptPair (sot_id no_timestamps_id : ℕ) (prompt : List ℕ) : ℕ × ℕ :=
  (sotIndex sot_id prompt,
   promptLengthFrom prompt sot_id no_timestamps_id (sotIndex sot_id prompt))

/-! ## `ApplyTimestampRules`: token-disabling phase (pure part) -/

/-- Constructor parameters of the `ApplyTimestampRules` logits processor. -/
structure TsParams where
  eot_id : ℕ
  no_timestamps_id : ℕ
  timestamp_begin_id : ℕ
  timestamp_end_id : ℕ
  max_initial_timestamp_id : ℕ
deriving DecidableEq

/-- Parameters as resolved by `WhisperReplica::generate`:
`timestamp_begin_id = no_timestamps_id + 1`, `timestamp_end_id = vocab − 1`,
`max_initial_timestamp_id = timestamp_begin_id + max_initial_timestamp_index`. -/
def timestampParams (eot_id no_timestamps_id vocab_size max_initial_timestamp_index : ℕ) :
    TsParams :=
  { eot_id := eot_id
    no_timestamps_id := no_timestamps_id
    timestamp_begin_id := no_timestamps_id + 1
    timestamp_end_id := vocab_size - 1
    max_initial_timestamp_id := no_timestamps_id + 1 + max_initial_timestamp_index }

/-- The monotonicity scan: walk the given positions (newest first); at the
first position holding a timestamp token, disable `[timestamp_begin_id, token)`
and stop. -/
def scanTimestamps (timestamp_begin_id : ℕ) (seq : ℕ → ℕ) : List ℕ → List ℕ
  | [] => []
  | t :: rest =>
    if timestamp_begin_id ≤ seq t then
      rangeIco timestamp_begin_id (seq t)
    else
      scanTimestamps timestamp_begin_id seq rest

/-- Positions `step − 1, step − 2, …, sample_begin` scanned by the
monotonicity loop. -/
def descPositions (step sample_begin : ℕ) : List ℕ :=
  (List.range (step - sample_begin)).map (fun k => step - 1 - k)

/-- The per-row token-disabling phase of `ApplyTimestampRules::apply`
(everything before the mass check).  Returns the ids disabled for the row, in
the order the C++ loops add them, together with the "check timestamps
probability" mark for the row. -/
def tsRowPhase1 (p : TsParams) (step sample_begin : ℕ) (seq : ℕ → ℕ) : List ℕ × Bool :=
  if step = sample_begin then
    ([p.no_timestamps_id] ++ rangeIco 0 p.timestamp_begin_id
      ++ rangeIcc (p.max_initial_timestamp_id + 1) p.timestamp_end_id, false)
  else if sample_begin < step then
    let last := seq (step - 1)
    let branch :=
      if p.timestamp_begin_id ≤ last then
        let penultimate := if sample_begin < step - 1 then seq (step - 2) else last
        if p.timestamp_begin_id ≤ penultimate then
          (rangeIcc p.timestamp_begin_id p.timestamp_end_id, false)
        else
          (rangeIco 0 p.eot_id, true)
      else
        (([] : List ℕ), true)
    ([p.no_timestamps_id] ++ branch.1
      ++ scanTimestamps p.timestamp_begin_id seq (descPositions step sample_begin), branch.2)
  else
    ([p.no_timestamps_id], false)

/-- Phase 1 of `ApplyTimestampRules::apply` over all rows: the accumulated
`(row, token)` disable pairs and the rows marked for the mass check
(`check_timestamps_prob_for_batch`). -/
def tsPhase1All (p : TsParams) (step : ℕ) (sample_begin : ℕ → ℕ) (seq : ℕ → ℕ → ℕ)
    (batch_size : ℕ) : List (ℕ × ℕ) × List ℕ :=
  ((List.range batch_size).flatMap
      (fun b => ((tsRowPhase1 p step (sample_begin b) (seq b)).1).map (fun i => (b, i))),
    (List.range batch_size).filter (fun b => (tsRowPhase1 p step (sample_begin b) (seq b)).2))

/-- Membership test in a `DisableTokens` accumulator. -/
def disabledIn (l : List (ℕ × ℕ)) (b i : ℕ) : Bool := (b, i) ∈ l

/-! ## The mass check of `ApplyTimestampRules`

`disable_tokens.apply()` masks the logits (`-inf` at disabled positions) and
`ops::LogSoftMax` turns them into log-probabilities; `-inf` log-probabilities
are modelled as `⊥ : WithBot ℝ`. -/

/-- The contribution of one token to the softmax normalizer after masking:
`exp(-inf) = 0`. -/
noncomputable def maskedExp (logits : ℕ → ℝ) (disabled : ℕ → Bool) (i : ℕ) : ℝ :=
  if disabled i then 0 else Real.exp (logits i)

/-- Log-probability of token `i` in one row after the accumulated disables
have been applied to the logits and `ops::LogSoftMax` ran: `⊥` (that is,
`-inf`) for a masked token, `logit − log Z` otherwise. -/
noncomputable def rowLogProb (logits : ℕ → ℝ) (disabled : ℕ → Bool) (vocab_size : ℕ)
    (i : ℕ) : WithBot ℝ :=
  if disabled i then ⊥
  else ((logits i - Real.log (∑ j ∈ Finset.range vocab_size, maskedExp logits disabled j) : ℝ) : WithBot ℝ)

/-- Exponential on `WithBot ℝ` with `exp ⊥ = 0`. -/
noncomputable def expWB : WithBot ℝ → ℝ
  | ⊥ => 0
  | (x : ℝ) => Real.exp x

/-- `primitives::logsumexp` over the tokens of `s`: `log (∑ exp (f i))`, with
`⊥` when the whole mass is zero (all tokens masked). -/
noncomputable def logsumexpWB (s : Finset ℕ) (f : ℕ → WithBot ℝ) : WithBot ℝ :=
  if (∑ i ∈ s, expWB (f i)) = 0 then ⊥ else ((Real.log (∑ i ∈ s, expWB (f i)) : ℝ) : WithBot ℝ)

/-- `primitives::max` over the text tokens `[0, timestamp_begin_id)`. -/
noncomputable def maxTextWB (timestamp_begin_id : ℕ) (f : ℕ → WithBot ℝ) : WithBot ℝ :=
  (Finset.range timestamp_begin_id).sup f

/-- `ApplyTimestampRules::should_sample_timestamp`: the logsumexp of the
timestamp log-probabilities exceeds the best text-token log-probability. -/
noncomputable def should_sample_timestamp (p : TsParams) (f : ℕ → WithBot ℝ) : Prop :=
  maxTextWB p.timestamp_begin_id f < logsumexpWB (Finset.Icc p.timestamp_begin_id p.timestamp_end_id) f

open Classical in
/-- Full `ApplyTimestampRules::apply`: phase 1 accumulates disables on top of
`prior` (ids disabled before this processor ran); if any row is marked, all
accumulated disables are applied to the logits, the log-softmax is taken, and
each marked row for which `should_sample_timestamp` holds additionally gets
`[0, timestamp_begin_id)` disabled. -/
noncomputable def tsApply (p : TsParams) (step : ℕ) (sample_begin : ℕ → ℕ)
    (seq : ℕ → ℕ → ℕ) (batch_size : ℕ) (prior : List (ℕ × ℕ))
    (logits : ℕ → ℕ → ℝ) (vocab_size : ℕ) : List (ℕ × ℕ) :=
  let phase1 := (tsPhase1All p step sample_begin seq batch_size).1
  let check := (tsPhase1All p step sample_begin seq batch_size).2
  let acc := prior ++ phase1
  if check.isEmpty then acc
  else
    acc ++ check.flatMap (fun b =>
      if should_sample_timestamp p
          (rowLogProb (logits b) (fun i => disabledIn acc b i) vocab_size) then
        (rangeIco 0 p.timestamp_begin_id).map (fun i => (b, i))
      else [])

/-! ## No-speech probability extraction -/

/-- Softmax probability of token `i` over a row of `vocab_size` logits. -/
noncomputable def softmaxProb (x : ℕ → ℝ) (vocab_size i : ℕ) : ℝ :=
  Real.exp (x i) / ∑ j ∈ Finset.range vocab_size, Real.exp (x j)

/-- `get_no_speech_probs_from_logits`: softmax each of the `num_rows` rows and
gather column `no_speech_id`. -/
noncomputable def get_no_speech_probs_from_logits (logits : ℕ → ℕ → ℝ)
    (vocab_size no_speech_id num_rows : ℕ) : List ℝ :=
  (List.range num_rows).map (fun r => softmaxProb (logits r) vocab_size no_speech_id)

/-- `GetNoSpeechProbs::apply`: on step 0 capture, for each of the `batch_size`
original batch items, the no-speech probability of beam row
`i * beam_size` (`beam_size = num_rows / batch_size`); on any other step keep
the stored vector.  The logits are returned unchanged in either case. -/
noncomputable def getNoSpeechProbsApply (no_speech_id vocab_size : ℕ) (step : ℕ)
    (logits : ℕ → ℕ → ℝ) (num_rows batch_size : ℕ) (stored : List ℝ) :
    List ℝ × (ℕ → ℕ → ℝ) :=
  if step = 0 then
    (let probs := get_no_speech_probs_from_logits logits vocab_size no_speech_id num_rows
     (List.range batch_size).map (fun i => probs.getD (i * (num_rows / batch_size)) 0),
     logits)
  else
    (stored, logits)

/-- The no-speech probabilities produced by `WhisperReplica::generate`:
nothing when `return_no_speech_prob` is off; the deferred `GetNoSpeechProbs`
capture at step 0 of the decode loop when SOT is the last prompt token; the
eager extraction from the prefill logits at column `sot_index` otherwise.
`sot_logits` are the decoder logits at the SOT step for each batch row
(`compute_logits_for_steps` on the prefill hidden outputs at `sot_index`);
`step0_logits` are the decode-loop logits at step 0 for each beam row. -/
noncomputable def generateNoSpeechProbs (return_no_speech_prob sot_is_start_token : Bool)
    (sot_logits step0_logits : ℕ → ℕ → ℝ) (vocab_size no_speech_id batch_size beam_size : ℕ) :
    List ℝ :=
  if return_no_speech_prob then
    if sot_is_start_token then
      (getNoSpeechProbsApply no_speech_id vocab_size 0 step0_logits
        (batch_size * beam_size) batch_size []).1
    else
      get_no_speech_probs_from_logits sot_logits vocab_size no_speech_id batch_size
  else []

/-! ## Generate wiring: prefill split, suppress expansion, processor list -/

/-- The prefill / start-token split of `WhisperReplica::generate`: when
`prompt_length == 1` there is no prefill and decoding starts at step 0 from
the full prompts; otherwise each prompt is split at `prompt_length − 1`, the
prefix list is fed to the decoder prefill, and decoding starts at step
`prompt_length − 1` (the common length of the prefill inputs). -/
def prefillSplit (prompts : List (List ℕ)) (prompt_length : ℕ) :
    List (List ℕ) × List (List ℕ) × ℕ :=
  if prompt_length = 1 then
    ([], prompts, 0)
  else
    (prompts.map (fun p => p.take (prompt_length - 1)),
     prompts.map (fun p => p.drop (prompt_length - 1)),
     prompt_length - 1)

/-- Expansion of the `suppress_tokens` option into `disable_ids`:
a non-negative id is pushed as is; the sentinel `−1` pushes the model-config
`suppress_ids`; any other negative id is skipped. -/
def expandSuppressTokens (suppress_tokens : List ℤ) (config_suppress_ids : List ℤ) : List ℤ :=
  suppress_tokens.foldl
    (fun acc id =>
      if 0 ≤ id then acc ++ [id]
      else if id = -1 then acc ++ config_suppress_ids
      else acc)
    []

/-- The logits processors installed by `WhisperReplica::generate`. -/
inductive ProcKind where
  | noSpeechProbs : ProcKind
  | timestampRules : TsParams → ProcKind
deriving DecidableEq

/-- Whether a processor declares `apply_first`. -/
def applyFirst : ProcKind → Bool
  | .noSpeechProbs => true
  | .timestampRules _ => false

/-- Processor installation in `WhisperReplica::generate`: `GetNoSpeechProbs`
iff `return_no_speech_prob` and SOT is the start token; `ApplyTimestampRules`
iff the last prompt token `prompts[0][prompt_length − 1]` is not
`no_timestamps_id`. -/
def generateLogitsProcessors (return_no_speech_prob sot_is_start_token : Bool)
    (prompts : List (List ℕ)) (prompt_length : ℕ)
    (eot_id no_timestamps_id vocab_size max_initial_timestamp_index : ℕ) : List ProcKind :=
  (if return_no_speech_prob ∧ sot_is_start_token then [ProcKind.noSpeechProbs] else [])
    ++ (if (prompts.headD []).getD (prompt_length - 1) 0 ≠ no_timestamps_id then
          [ProcKind.timestampRules
            (timestampParams eot_id no_timestamps_id vocab_size max_initial_timestamp_index)]
        else [])

/-! ## Language detection -/

/-- `is_multilingual`: the vocabulary has exactly 51865 entries. -/
def is_multilingual (vocab_size : ℕ) : Bool := vocab_size == 51865

/-- Core of `WhisperReplica::detect_language`, generic in the probability
values: fail on a non-multilingual model, else for every batch row build one
`(token string, probability)` pair per `lang_ids` entry and sort by
probability descending (`std::sort` with comparator `a.second > b.second`). -/
def detect_language {α : Type} [LinearOrder α] (multilingual : Bool) (lang_ids : List ℕ)
    (to_token : ℕ → String) (probs : ℕ → ℕ → α) (batch_size : ℕ) :
    Except String (List (List (String × α))) :=
  if multilingual = false then
    .error "detect_language can only be called on multilingual models"
  else
    .ok ((List.range batch_size).map (fun i =>
      (((List.range lang_ids.length).map
          (fun j => (to_token (lang_ids.getD j 0), probs i j))).mergeSort
        (fun a b => decide (b.2 ≤ a.2)))))

/-- The language probabilities of `detect_language`: gather the `lang_ids`
columns from the single-step decoder logits of row `i`, then softmax over the
gathered values. -/
noncomputable def whisperLangProbs (logits : ℕ → ℕ → ℝ) (lang_ids : List ℕ) (i j : ℕ) : ℝ :=
  softmaxProb (fun k => logits i (lang_ids.getD k 0)) lang_ids.length j

/-- `WhisperReplica::detect_language` with the decoder single-step logits
abstracted as `logits`. -/
noncomputable def detect_language_run (vocab_size : ℕ) (lang_ids : List ℕ)
    (to_token : ℕ → String) (logits : ℕ → ℕ → ℝ) (batch_size : ℕ) :
    Except String (List (List (String × ℝ))) :=
  detect_language (is_multilingual vocab_size) lang_ids to_token
    (whisperLangProbs logits lang_ids) batch_size

/-! ## Result assembly -/

/-- The fields of a `DecodingResult` used by the assembly loop.  `A` is the
(opaque) attention payload type. -/
structure DecodingResultM (A : Type) where
  hypotheses : List (List ℕ)
  scores : List ℝ
  token_scores : List (List ℝ)
  attention : A

/-- The fields of a `WhisperGenerationResult`.  `no_speech_prob` is a plain
float defaulting to 0 when `return_no_speech_prob` is off. -/
structure WhisperGenerationResultM (A : Type) where
  sequences : List (List String)
  sequences_ids : List (List ℕ)
  scores : List ℝ
  token_scores : List ℝ
  attention : A
  no_speech_prob : ℝ

/-- A default (empty) decoding result, used for out-of-range indexing in
statements. -/
def emptyDecodingResult (A : Type) (a : A) : DecodingResultM A :=
  { hypotheses := [], scores := [], token_scores := [], attention := a }

/-- The result-assembly loop of `WhisperReplica::generate`: for each decoding
result in order, detokenize the hypotheses, move ids, scores, the token
scores of hypothesis 0, and the attention, and set `no_speech_prob[i]` iff
`return_no_speech_prob` is on. -/
def assembleResults {A : Type} (a : A) (to_token : ℕ → String)
    (return_no_speech_prob : Bool) (no_speech_probs : List ℝ)
    (results : List (DecodingResultM A)) : List (WhisperGenerationResultM A) :=
  (List.range results.length).map (fun i =>
    let r := results.getD i (emptyDecodingResult A a)
    { sequences := r.hypotheses.map (List.map to_token)
      sequences_ids := r.hypotheses
      scores := r.scores
      token_scores := r.token_scores.getD 0 []
      attention := r.attention
      no_speech_prob := if return_no_speech_prob then no_speech_probs.getD i 0 else 0 })

/-- A concrete decoding result used to exercise the assembly loop. -/
def sampleDecodingResult : DecodingResultM Unit :=
  { hypotheses := [[3]], scores := [2], token_scores := [[4]], attention := () }

/-- A concrete default generation result used for out-of-range indexing. -/
def sampleGenResult : WhisperGenerationResultM Unit :=
  { sequences := [], sequences_ids := [], scores := [], token_scores := [],
    attention := (), no_speech_prob := 0 }

/-! ## Helper lemmas -/

theorem mem_rangeIco {a b j : ℕ} : j ∈ rangeIco a b ↔ a ≤ j ∧ j < b := by
  simp only [rangeIco, List.mem_map, List.mem_range]
  constructor
  · rintro ⟨k, hk, rfl⟩; omega
  · intro h; exact ⟨j - a, by omega, by omega⟩

theorem mem_rangeIcc {a b j : ℕ} : j ∈ rangeIcc a b ↔ a ≤ j ∧ j ≤ b := by
  simp only [rangeIcc, List.mem_map, List.mem_range]
  constructor
  · rintro ⟨k, hk, rfl⟩; omega
  · intro h; exact ⟨j - a, by omega, by omega⟩

theorem getD_map_range {α : Type} (f : ℕ → α) {n i : ℕ} (d : α) (h : i < n) :
    ((List.range n).map f).getD i d = f i := by
  rw [List.getD_eq_getElem?_getD, List.getElem?_map, List.getElem?_range h]; rfl

/-! ## Prompt analysis: characterization of the while loop -/

theorem sotIndex_spec {sot_id : ℕ} {prompt : List ℕ} (h : sot_id ∈ prompt) :
    sotIndex sot_id prompt < prompt.length ∧ prompt.getD (sotIndex sot_id prompt) 0 = sot_id := by
  induction prompt with
  | nil => cases h
  | cons t rest ih =>
    by_cases ht : t = sot_id
    · simp [sotIndex, ht]
    · rcases List.mem_cons.mp h with h1 | h2
      · exact absurd h1.symm ht
      · have := ih h2
        simp only [sotIndex, if_neg ht, List.length_cons, List.getD_cons_succ]
        exact ⟨by omega, this.2⟩

/-- The fuel-indexed loop body computes the same value for any sufficient
fuel, so the wrapper is one unfolding of the while loop. -/
theorem promptLengthAux_fuel (prompt : List ℕ) (sot_id no_timestamps_id : ℕ) :
    ∀ fuel fuel' index, prompt.length - index ≤ fuel → prompt.length - index ≤ fuel' →
      promptLengthAux prompt sot_id no_timestamps_id fuel index =
        promptLengthAux prompt sot_id no_timestamps_id fuel' index := by
  intro fuel
  induction fuel with
  | zero =>
    intro fuel' index h1 h2
    cases fuel' with
    | zero => rfl
    | succ n =>
      simp only [promptLengthAux]
      rw [if_neg (by omega)]
  | succ n ih =>
    intro fuel' index h1 h2
    cases fuel' with
    | zero =>
      simp only [promptLengthAux]
      rw [if_neg (by omega)]
    | succ m =>
      simp only [promptLengthAux]
      by_cases hc : index < prompt.length ∧ sot_id ≤ prompt.getD index 0 ∧
          prompt.getD index 0 ≤ no_timestamps_id
      · rw [if_pos hc, if_pos hc]
        exact ih m (index + 1) (by omega) (by omega)
      · rw [if_neg hc, if_neg hc]

/-- One unfolding of the `get_prompt_length` while loop. -/
theorem promptLengthFrom_eq (prompt : List ℕ) (sot_id no_timestamps_id index : ℕ) :
    promptLengthFrom prompt sot_id no_timestamps_id index =
      if index < prompt.length ∧ sot_id ≤ prompt.getD index 0 ∧
          prompt.getD index 0 ≤ no_timestamps_id then
        promptLengthFrom prompt sot_id no_timestamps_id (index + 1)
      else index := by
  by_cases hc : index < prompt.length ∧ sot_id ≤ prompt.getD index 0 ∧
      prompt.getD index 0 ≤ no_timestamps_id
  · rw [if_pos hc]
    show promptLengthAux prompt sot_id no_timestamps_id (prompt.length - index) index = _
    have hlen : prompt.length - index = (prompt.length - (index + 1)) + 1 := by omega
    rw [hlen]
    simp only [promptLengthAux, if_pos hc]
    rfl
  · rw [if_neg hc]
    show promptLengthAux prompt sot_id no_timestamps_id (prompt.length - index) index = index
    cases h : prompt.length - index with
    | zero => rfl
    | succ n => simp only [promptLengthAux, if_neg hc]

/-- Full characterization of the `get_prompt_length` while loop: it stops at
the first index at or after `index` that is out of bounds or holds a token
outside `[sot_id, no_timestamps_id]`. -/
theorem promptLengthFrom_char (prompt : List ℕ) (sot_id no_timestamps_id : ℕ) :
    ∀ index, index ≤ prompt.length →
      index ≤ promptLengthFrom prompt sot_id no_timestamps_id index ∧
      promptLengthFrom prompt sot_id no_timestamps_id index ≤ prompt.length ∧
      (∀ j, index ≤ j → j < promptLengthFrom prompt sot_id no_timestamps_id index →
        sot_id ≤ prompt.getD j 0 ∧ prompt.getD j 0 ≤ no_timestamps_id) ∧
      (promptLengthFrom prompt sot_id no_timestamps_id index < prompt.length →
        ¬(sot_id ≤ prompt.getD (promptLengthFrom prompt sot_id no_timestamps_id index) 0 ∧
          prompt.getD (promptLengthFrom prompt sot_id no_timestamps_id index) 0 ≤ no_timestamps_id)) := by
  have main : ∀ n index, prompt.length - index ≤ n → index ≤ prompt.length →
      index ≤ promptLengthFrom prompt sot_id no_timestamps_id index ∧
      promptLengthFrom prompt sot_id no_timestamps_id index ≤ prompt.length ∧
      (∀ j, index ≤ j → j < promptLengthFrom prompt sot_id no_timestamps_id index →
        sot_id ≤ prompt.getD j 0 ∧ prompt.getD j 0 ≤ no_timestamps_id) ∧
      (promptLengthFrom prompt sot_id no_timestamps_id index < prompt.length →
        ¬(sot_id ≤ prompt.getD (promptLengthFrom prompt sot_id no_timestamps_id index) 0 ∧
          prompt.getD (promptLengthFrom prompt sot_id no_timestamps_id index) 0 ≤ no_timestamps_id)) := by
    intro n
    induction n with
    | zero =>
      intro index hn hle
      have hidx : index = prompt.length := by omega
      rw [promptLengthFrom_eq, if_neg (by omega)]
      refine ⟨le_refl _, by omega, fun j h1 h2 => by omega, fun h => by omega⟩
    | succ n ih =>
      intro index hn hle
      by_cases hc : index < prompt.length ∧ sot_id ≤ prompt.getD index 0 ∧
          prompt.getD index 0 ≤ no_timestamps_id
      · have heq : promptLengthFrom prompt sot_id no_timestamps_id index =
            promptLengthFrom prompt sot_id no_timestamps_id (index + 1) := by
          rw [promptLengthFrom_eq, if_pos hc]
        have hrec := ih (index + 1) (by omega) (by omega)
        rw [heq]
        refine ⟨by omega, hrec.2.1, ?_, hrec.2.2.2⟩
        intro j h1 h2
        rcases Nat.eq_or_lt_of_le h1 with h3 | h3
        · exact h3 ▸ ⟨hc.2.1, hc.2.2⟩
        · exact hrec.2.2.1 j h3 h2
      · have heq : promptLengthFrom prompt sot_id no_timestamps_id index = index := by
          rw [promptLengthFrom_eq, if_neg hc]
        rw [heq]
        refine ⟨le_refl _, hle, fun j h1 h2 => by omega, fun h => ?_⟩
        intro hin
        exact hc ⟨h, hin.1, hin.2⟩
  intro index hle
  exact main (prompt.length - index) index (le_refl _) hle

/-- The value computed by the `get_prompt_length` loop matches the
specification formula: the smallest index at or after `sot_index` whose token
lies outside `[sot_id, no_timestamps_id]`, or the prompt's length if no such
index exists. -/
theorem promptLengthFrom_eq_spec (prompt : List ℕ) (sot_id no_timestamps_id index : ℕ)
    (hle : index ≤ prompt.length) :
    promptLengthFrom prompt sot_id no_timestamps_id index =
      if h : ∃ j, j < prompt.length ∧ index ≤ j ∧
          ¬(sot_id ≤ prompt.getD j 0 ∧ prompt.getD j 0 ≤ no_timestamps_id) then
        Nat.find h
      else prompt.length := by
  obtain ⟨h1, h2, h3, h4⟩ := promptLengthFrom_char prompt sot_id no_timestamps_id index hle
  generalize hL : promptLengthFrom prompt sot_id no_timestamps_id index = L at h1 h2 h3 h4
  by_cases h : ∃ j, j < prompt.length ∧ index ≤ j ∧
      ¬(sot_id ≤ prompt.getD j 0 ∧ prompt.getD j 0 ≤ no_timestamps_id)
  · rw [dif_pos h]
    obtain ⟨hj1, hj2, hj3⟩ := Nat.find_spec h
    rcases Nat.lt_trichotomy L (Nat.find h) with hlt | heq | hgt
    · exact absurd ⟨by omega, h1, h4 (by omega)⟩ (Nat.find_min h hlt)
    · exact heq
    · exact absurd (h3 _ hj2 hgt) hj3
  · rw [dif_neg h]
    push_neg at h
    by_contra hcon
    have hLlen : L < prompt.length := by omega
    exact (h4 hLlen) (h L hLlen h1)

theorem check_prompts_from_ok_of (sot_id no_timestamps_id sot_index prompt_length : ℕ)
    (l : List (List ℕ))
    (h : ∀ p ∈ l, sot_id ∈ p ∧ promptPair sot_id no_timestamps_id p = (sot_index, prompt_length)) :
    check_prompts_from sot_id no_timestamps_id sot_index prompt_length l =
      .ok (sot_index, prompt_length) := by
  induction l with
  | nil => rfl
  | cons p rest ih =>
    obtain ⟨hmem, hpair⟩ := h p (List.mem_cons_self p rest)
    have h1 : sotIndex sot_id p = sot_index := congrArg Prod.fst hpair
    have h2 : promptLengthFrom p sot_id no_timestamps_id sot_index = prompt_length := by
      rw [← h1]; exact congrArg Prod.snd hpair
    simp only [check_prompts_from, get_sot_index, if_pos hmem, h1, h2, ne_eq,
      not_true_eq_false, if_false]
    exact ih (fun q hq => h q (List.mem_cons_of_mem p hq))

theorem check_prompts_from_error_of (sot_id no_timestamps_id sot_index prompt_length : ℕ)
    (l : List (List ℕ))
    (h : ¬ ∀ p ∈ l, sot_id ∈ p ∧
        promptPair sot_id no_timestamps_id p = (sot_index, prompt_length)) :
    ∃ e, check_prompts_from sot_id no_timestamps_id sot_index prompt_length l = .error e := by
  induction l with
  | nil => exact absurd (by intro p hp; cases hp) h
  | cons p rest ih =>
    by_cases hp : sot_id ∈ p ∧ promptPair sot_id no_timestamps_id p = (sot_index, prompt_length)
    · have h1 : sotIndex sot_id p = sot_index := congrArg Prod.fst hp.2
      have h2 : promptLengthFrom p sot_id no_timestamps_id sot_index = prompt_length := by
        rw [← h1]; exact congrArg Prod.snd hp.2
      have hrest : ¬ ∀ q ∈ rest, sot_id ∈ q ∧
          promptPair sot_id no_timestamps_id q = (sot_index, prompt_length) := by
        intro hall
        exact h (fun q hq => (List.mem_cons.mp hq).elim (fun he => he ▸ hp) (hall q))
      obtain ⟨e, he⟩ := ih hrest
      refine ⟨e, ?_⟩
      simp only [check_prompts_from, get_sot_index, if_pos hp.1, h1, h2, ne_eq,
        not_true_eq_false, if_false]
      exact he
    · by_cases hmem : sot_id ∈ p
      · have hpair : promptPair sot_id no_timestamps_id p ≠ (sot_index, prompt_length) :=
          fun hc => hp ⟨hmem, hc⟩
        by_cases hsi : sotIndex sot_id p = sot_index
        · have hpl : promptLengthFrom p sot_id no_timestamps_id sot_index
              ≠ prompt_length := by
            intro hc
            refine hpair ?_
            simp only [promptPair, hsi]
            exact Prod.ext rfl hc
          refine ⟨msgTaskTokens, ?_⟩
          simp only [check_prompts_from, get_sot_index, if_pos hmem, hsi, ne_eq,
            not_true_eq_false, if_false, hpl, not_false_eq_true, if_true]
        · refine ⟨msgSotPos, ?_⟩
          simp only [check_prompts_from, get_sot_index, if_pos hmem, ne_eq, hsi,
            not_false_eq_true, if_true]
      · exact ⟨msgNoSot, by simp only [check_prompts_from, get_sot_index, if_neg hmem]⟩

theorem check_prompts_from_ok_inv (sot_id no_timestamps_id sot_index prompt_length : ℕ)
    (l : List (List ℕ)) (out : ℕ × ℕ)
    (h : check_prompts_from sot_id no_timestamps_id sot_index prompt_length l = .ok out) :
    out = (sot_index, prompt_length) ∧
      ∀ p ∈ l, sot_id ∈ p ∧
        promptPair sot_id no_timestamps_id p = (sot_index, prompt_length) := by
  by_cases hall : ∀ p ∈ l, sot_id ∈ p ∧
      promptPair sot_id no_timestamps_id p = (sot_index, prompt_length)
  · have heq := check_prompts_from_ok_of sot_id no_timestamps_id sot_index prompt_length l hall
    rw [heq] at h
    injection h with h2
    exact ⟨h2.symm, hall⟩
  · obtain ⟨e, he⟩ := check_prompts_from_error_of sot_id no_timestamps_id sot_index
      prompt_length l hall
    rw [he] at h
    cases h

theorem check_prompts_ok_inv (sot_id no_timestamps_id : ℕ) (first : List ℕ)
    (rest : List (List ℕ)) (out : ℕ × ℕ)
    (h : check_prompts sot_id no_timestamps_id (first :: rest) = .ok out) :
    sot_id ∈ first ∧ out = promptPair sot_id no_timestamps_id first ∧
      ∀ p ∈ first :: rest, sot_id ∈ p ∧ promptPair sot_id no_timestamps_id p = out := by
  by_cases hmem : sot_id ∈ first
  · simp only [check_prompts, get_sot_index, if_pos hmem] at h
    obtain ⟨hout, hall⟩ := check_prompts_from_ok_inv _ _ _ _ _ _ h
    refine ⟨hmem, by rw [hout]; rfl, ?_⟩
    intro p hp
    rcases List.mem_cons.mp hp with he | hr
    · exact ⟨he ▸ hmem, by rw [he, hout]; rfl⟩
    · have := hall p hr
      exact ⟨this.1, by rw [this.2, hout]⟩
  · simp only [check_prompts, get_sot_index, if_neg hmem] at h
    cases h

/-- Claim C5: prompt analysis throws invalid-argument when any prompt lacks
the SOT token; throws invalid-argument when any later prompt's
`(sot_index, prompt_length)` pair differs from the first prompt's; otherwise
returns the common pair, whose `prompt_length` is the smallest index at or
after `sot_index` whose token lies outside `[sot_id, no_timestamps_id]`, or
the prompt's length if no such index exists. -/
theorem claim_C5 (sot_id no_timestamps_id : ℕ) (first : List ℕ) (rest : List (List ℕ)) :
    ((∃ p ∈ first :: rest, sot_id ∉ p) →
      ∃ e, check_prompts sot_id no_timestamps_id (first :: rest) = .error e) ∧
    ((∀ p ∈ first :: rest, sot_id ∈ p) →
      (∃ p ∈ rest, promptPair sot_id no_timestamps_id p ≠ promptPair sot_id no_timestamps_id first) →
      ∃ e, check_prompts sot_id no_timestamps_id (first :: rest) = .error e) ∧
    ((∀ p ∈ first :: rest, sot_id ∈ p ∧
        promptPair sot_id no_timestamps_id p = promptPair sot_id no_timestamps_id first) →
      check_prompts sot_id no_timestamps_id (first :: rest) =
        .ok (promptPair sot_id no_timestamps_id first) ∧
      (promptPair sot_id no_timestamps_id first).2 =
        (if h : ∃ j, j < first.length ∧ sotIndex sot_id first ≤ j ∧
            ¬(sot_id ≤ first.getD j 0 ∧ first.getD j 0 ≤ no_timestamps_id) then
          Nat.find h
        else first.length)) := by
  refine ⟨?_, ?_, ?_⟩
  · rintro ⟨p, hp, hnot⟩
    by_cases hfirst : sot_id ∈ first
    · rcases List.mem_cons.mp hp with he | hr
      · exact absurd (show sot_id ∈ p by rw [he]; exact hfirst) hnot
      · simp only [check_prompts, get_sot_index, if_pos hfirst]
        refine check_prompts_from_error_of _ _ _ _ _ ?_
        intro hall
        exact hnot (hall p hr).1
    · exact ⟨msgNoSot, by simp only [check_prompts, get_sot_index, if_neg hfirst]⟩
  · rintro hall ⟨p, hp, hne⟩
    have hfirst : sot_id ∈ first := hall first (List.mem_cons_self first rest)
    simp only [check_prompts, get_sot_index, if_pos hfirst]
    refine check_prompts_from_error_of _ _ _ _ _ ?_
    intro hall2
    exact hne (hall2 p hp).2
  · intro hall
    have hfirst : sot_id ∈ first := (hall first (List.mem_cons_self first rest)).1
    constructor
    · simp only [check_prompts, get_sot_index, if_pos hfirst]
      have hok : check_prompts_from sot_id no_timestamps_id (sotIndex sot_id first)
          (promptLengthFrom first sot_id no_timestamps_id (sotIndex sot_id first)) rest =
          .ok (sotIndex sot_id first,
            promptLengthFrom first sot_id no_timestamps_id (sotIndex sot_id first)) :=
        check_prompts_from_ok_of _ _ _ _ rest (fun p hp => by
          have h2 := hall p (List.mem_cons_of_mem first hp)
          exact ⟨h2.1, by rw [h2.2]; rfl⟩)
      rw [hok]
      rfl
    · have hsi := sotIndex_spec hfirst
      exact promptLengthFrom_eq_spec first sot_id no_timestamps_id
        (sotIndex sot_id first) (by omega)

/-- Claim C10: on a validated batch (and with `sot_id ≤ no_timestamps_id`, as
holds for the Whisper special-token layout), every prompt satisfies
`sot_index < prompt_length ≤ length`, so the accesses
`prompts[i][prompt_length − 1]`, the prefix / start-token split at
`prompt_length − 1`, and the `sot_is_start_token` predicate are in bounds. -/
theorem claim_C10 (sot_id no_timestamps_id : ℕ) (prompts : List (List ℕ))
    (sot_index prompt_length : ℕ) (hsn : sot_id ≤ no_timestamps_id)
    (hok : check_prompts sot_id no_timestamps_id prompts = .ok (sot_index, prompt_length))
    (p : List ℕ) (hp : p ∈ prompts) :
    sot_index < prompt_length ∧ prompt_length ≤ p.length ∧
      prompt_length - 1 < p.length := by
  cases prompts with
  | nil => cases hp
  | cons first rest =>
    obtain ⟨hfirst, hout, hall⟩ := check_prompts_ok_inv _ _ _ _ _ hok
    obtain ⟨hmem, hpair⟩ := hall p hp
    have hsi : sotIndex sot_id p = sot_index := congrArg Prod.fst hpair
    have hpl : promptLengthFrom p sot_id no_timestamps_id (sotIndex sot_id p) = prompt_length :=
      congrArg Prod.snd hpair
    obtain ⟨hlen, hget⟩ := sotIndex_spec hmem
    obtain ⟨h1, h2, h3, h4⟩ := promptLengthFrom_char p sot_id no_timestamps_id
      (sotIndex sot_id p) (by omega)
    rw [hpl] at h1 h2 h3 h4
    have hne : sot_index ≠ prompt_length := by
      intro he
      rw [hsi] at hget hlen
      exact (h4 (he ▸ hlen)) (by rw [← he, hget]; exact ⟨le_refl _, hsn⟩)
    rw [hsi] at h1
    exact ⟨by omega, h2, by omega⟩

/-- Witness for claim C5 at concrete batches: a missing SOT errors, a length
mismatch errors, and a uniform batch returns the common pair. -/
theorem claim_C5_witness :
    (∃ e, check_prompts 5 7 [[1, 2], [5]] = .error e) ∧
    (∃ e, check_prompts 5 7 [[5, 6], [5, 6, 7]] = .error e) ∧
    check_prompts 5 7 [[5, 6, 9], [5, 6, 8]] = .ok (promptPair 5 7 [5, 6, 9]) :=
  ⟨(claim_C5 5 7 [1, 2] [[5]]).1 ⟨[1, 2], by decide, by decide⟩,
   (claim_C5 5 7 [5, 6] [[5, 6, 7]]).2.1 (by decide) ⟨[5, 6, 7], by decide, by decide⟩,
   ((claim_C5 5 7 [5, 6, 9] [[5, 6, 8]]).2.2 (by decide)).1⟩

/-- Witness for claim C10 at a concrete validated batch. -/
theorem claim_C10_witness :
    0 < 2 ∧ 2 ≤ ([5, 6, 9] : List ℕ).length ∧ 2 - 1 < ([5, 6, 9] : List ℕ).length :=
  claim_C10 5 7 [[5, 6, 9], [5, 6, 8]] 0 2 (by decide) (by rfl) [5, 6, 9] (by decide)

/-! ## Claims C1 and C2: the token-disabling phases of `ApplyTimestampRules` -/

theorem scanTimestamps_eq_of_first (timestamp_begin_id : ℕ) (seq : ℕ → ℕ) :
    ∀ (l : List ℕ) (n : ℕ), n < l.length →
      timestamp_begin_id ≤ seq (l.getD n 0) →
      (∀ m, m < n → seq (l.getD m 0) < timestamp_begin_id) →
      scanTimestamps timestamp_begin_id seq l =
        rangeIco timestamp_begin_id (seq (l.getD n 0)) := by
  intro l
  induction l with
  | nil => intro n hn; simp at hn
  | cons t rest ih =>
    intro n hn hts hbefore
    cases n with
    | zero =>
      rw [List.getD_cons_zero] at hts
      simp only [scanTimestamps]
      rw [if_pos hts, List.getD_cons_zero]
    | succ m =>
      have h0 : seq t < timestamp_begin_id := by
        have h1 := hbefore 0 (Nat.succ_pos m)
        rw [List.getD_cons_zero] at h1
        exact h1
      rw [List.getD_cons_succ] at hts
      have hn2 : m < rest.length := by
        rw [List.length_cons] at hn
        omega
      simp only [scanTimestamps]
      rw [if_neg (by omega), List.getD_cons_succ]
      exact ih m hn2 hts (fun k hk => by
        have h2 := hbefore (k + 1) (by omega)
        rw [List.getD_cons_succ] at h2
        exact h2)

theorem scanTimestamps_eq_nil (timestamp_begin_id : ℕ) (seq : ℕ → ℕ) :
    ∀ (l : List ℕ), (∀ x ∈ l, seq x < timestamp_begin_id) →
      scanTimestamps timestamp_begin_id seq l = [] := by
  intro l
  induction l with
  | nil => intro _; rfl
  | cons t rest ih =>
    intro h
    have h0 : seq t < timestamp_begin_id := h t (List.mem_cons_self t rest)
    simp only [scanTimestamps]
    rw [if_neg (by omega)]
    exact ih (fun x hx => h x (List.mem_cons_of_mem t hx))

theorem descPositions_getD (step sample_begin k : ℕ) (h : k < step - sample_begin) :
    (descPositions step sample_begin).getD k 0 = step - 1 - k := by
  simp only [descPositions]
  exact getD_map_range _ _ h

theorem descPositions_length (step sample_begin : ℕ) :
    (descPositions step sample_begin).length = step - sample_begin := by
  simp [descPositions]

theorem tsRowPhase1_start_mem (p : TsParams) (sample_begin : ℕ) (seq : ℕ → ℕ) (j : ℕ) :
    j ∈ (tsRowPhase1 p sample_begin sample_begin seq).1 ↔
      (j = p.no_timestamps_id ∨ j < p.timestamp_begin_id ∨
        (p.max_initial_timestamp_id < j ∧ j ≤ p.timestamp_end_id)) := by
  simp only [tsRowPhase1, if_pos rfl, ite_true, List.mem_append, List.mem_singleton,
    mem_rangeIco, mem_rangeIcc]
  omega

theorem timestampParams_fields (eot_id no_timestamps_id vocab_size k : ℕ) :
    (timestampParams eot_id no_timestamps_id vocab_size k).eot_id = eot_id ∧
    (timestampParams eot_id no_timestamps_id vocab_size k).no_timestamps_id = no_timestamps_id ∧
    (timestampParams eot_id no_timestamps_id vocab_size k).timestamp_begin_id
      = no_timestamps_id + 1 ∧
    (timestampParams eot_id no_timestamps_id vocab_size k).timestamp_end_id = vocab_size - 1 ∧
    (timestampParams eot_id no_timestamps_id vocab_size k).max_initial_timestamp_id
      = no_timestamps_id + 1 + k :=
  ⟨rfl, rfl, rfl, rfl, rfl⟩

/-- Claim C1: `ApplyTimestampRules` is installed by `generate` iff
`prompts[0][prompt_length − 1] ≠ no_timestamps_id`, and at the first
generated step (`step == sample_begin`) the ids it disables for a row are
exactly `no_timestamps_id`, `[0, timestamp_begin_id)` and
`(max_initial_timestamp_id, timestamp_end_id]`, so any enabled vocabulary id
is a timestamp id not exceeding `max_initial_timestamp_id`. -/
theorem claim_C1 (return_no_speech_prob sot_is_start_token : Bool)
    (prompts : List (List ℕ)) (prompt_length : ℕ)
    (eot_id no_timestamps_id vocab_size max_initial_timestamp_index : ℕ)
    (sample_begin : ℕ) (seq : ℕ → ℕ) (i : ℕ)
    (hi : i ≤ vocab_size - 1) :
    ((ProcKind.timestampRules
        (timestampParams eot_id no_timestamps_id vocab_size max_initial_timestamp_index) ∈
      generateLogitsProcessors return_no_speech_prob sot_is_start_token prompts prompt_length
        eot_id no_timestamps_id vocab_size max_initial_timestamp_index) ↔
      (prompts.headD []).getD (prompt_length - 1) 0 ≠ no_timestamps_id) ∧
    (∀ j, j ∈ (tsRowPhase1
        (timestampParams eot_id no_timestamps_id vocab_size max_initial_timestamp_index)
        sample_begin sample_begin seq).1 ↔
      (j = no_timestamps_id ∨ j < no_timestamps_id + 1 ∨
        (no_timestamps_id + 1 + max_initial_timestamp_index < j ∧ j ≤ vocab_size - 1))) ∧
    (i ∉ (tsRowPhase1
        (timestampParams eot_id no_timestamps_id vocab_size max_initial_timestamp_index)
        sample_begin sample_begin seq).1 →
      no_timestamps_id + 1 ≤ i ∧ i ≤ no_timestamps_id + 1 + max_initial_timestamp_index) := by
  refine ⟨?_, ?_, ?_⟩
  · simp only [generateLogitsProcessors, List.mem_append]
    constructor
    · intro h
      rcases h with h | h
      · by_cases hc : return_no_speech_prob ∧ sot_is_start_token
        · rw [if_pos hc] at h
          simp at h
        · rw [if_neg hc] at h
          simp at h
      · by_cases hc : (prompts.headD []).getD (prompt_length - 1) 0 ≠ no_timestamps_id
        · exact hc
        · rw [if_neg hc] at h
          simp at h
    · intro h
      right
      rw [if_pos h]
      exact List.mem_singleton.mpr rfl
  · intro j
    rw [tsRowPhase1_start_mem]
    obtain ⟨he, hn, hb, ht, hm⟩ := timestampParams_fields eot_id no_timestamps_id
      vocab_size max_initial_timestamp_index
    rw [hn, hb, ht, hm]
  · intro hnot
    rw [tsRowPhase1_start_mem] at hnot
    obtain ⟨he, hn, hb, ht, hm⟩ := timestampParams_fields eot_id no_timestamps_id
      vocab_size max_initial_timestamp_index
    rw [hn, hb, ht, hm] at hnot
    omega

/-- Witness for claim C1 at concrete parameters. -/
theorem claim_C1_witness :
    ((ProcKind.timestampRules (timestampParams 2 10 16 2) ∈
        generateLogitsProcessors false false [[5, 9]] 2 2 10 16 2) ↔
      ((([[5, 9]] : List (List ℕ)).headD []).getD 1 0 ≠ 10)) ∧
    (∀ j, j ∈ (tsRowPhase1 (timestampParams 2 10 16 2) 3 3 (fun _ => 0)).1 ↔
      (j = 10 ∨ j < 11 ∨ (13 < j ∧ j ≤ 15))) ∧
    (12 ∉ (tsRowPhase1 (timestampParams 2 10 16 2) 3 3 (fun _ => 0)).1 → 11 ≤ 12 ∧ 12 ≤ 13) :=
  claim_C1 false false [[5, 9]] 2 2 10 16 2 3 (fun _ => 0) 12 (by decide)

/-- Claim C2: for `step > sample_begin`, if the last generated token is a
timestamp and the penultimate token (the last token itself when
`step − 1 == sample_begin`) is also a timestamp, every id in
`[timestamp_begin_id, timestamp_end_id]` is disabled; if the last token is a
timestamp but the penultimate is not, every id in `[0, eot_id)` is disabled;
and the monotonicity scan disables exactly `[timestamp_begin_id, t)` for the
most recent timestamp token `t` and stops there (a no-op when no timestamp
exists in the generated window). -/
theorem claim_C2 (p : TsParams) (step sample_begin : ℕ) (seq : ℕ → ℕ)
    (h : sample_begin < step) :
    (p.timestamp_begin_id ≤ seq (step - 1) →
      p.timestamp_begin_id ≤ (if sample_begin < step - 1 then seq (step - 2) else seq (step - 1)) →
      ∀ i, p.timestamp_begin_id ≤ i → i ≤ p.timestamp_end_id →
        i ∈ (tsRowPhase1 p step sample_begin seq).1) ∧
    (p.timestamp_begin_id ≤ seq (step - 1) →
      (if sample_begin < step - 1 then seq (step - 2) else seq (step - 1)) < p.timestamp_begin_id →
      ∀ i, i < p.eot_id → i ∈ (tsRowPhase1 p step sample_begin seq).1) ∧
    (∀ k, k < step - sample_begin → p.timestamp_begin_id ≤ seq (step - 1 - k) →
      (∀ m, m < k → seq (step - 1 - m) < p.timestamp_begin_id) →
      scanTimestamps p.timestamp_begin_id seq (descPositions step sample_begin) =
        rangeIco p.timestamp_begin_id (seq (step - 1 - k)) ∧
      ∀ i, p.timestamp_begin_id ≤ i → i < seq (step - 1 - k) →
        i ∈ (tsRowPhase1 p step sample_begin seq).1) ∧
    ((∀ k, k < step - sample_begin → seq (step - 1 - k) < p.timestamp_begin_id) →
      scanTimestamps p.timestamp_begin_id seq (descPositions step sample_begin) = []) := by
  have hne : ¬ step = sample_begin := by omega
  have hscan_first : ∀ k, k < step - sample_begin → p.timestamp_begin_id ≤ seq (step - 1 - k) →
      (∀ m, m < k → seq (step - 1 - m) < p.timestamp_begin_id) →
      scanTimestamps p.timestamp_begin_id seq (descPositions step sample_begin) =
        rangeIco p.timestamp_begin_id (seq (step - 1 - k)) := by
    intro k hk hts hbefore
    have hlen : k < (descPositions step sample_begin).length := by
      rw [descPositions_length]; exact hk
    have hgetk := descPositions_getD step sample_begin k hk
    refine (scanTimestamps_eq_of_first p.timestamp_begin_id seq _ k hlen
      (by rw [hgetk]; exact hts) ?_).trans (by rw [hgetk])
    intro m hm
    rw [descPositions_getD step sample_begin m (by omega)]
    exact hbefore m hm
  refine ⟨?_, ?_, ?_, ?_⟩
  · intro hlast hpen i h1 h2
    simp only [tsRowPhase1, if_neg hne, if_pos h, if_pos hlast, if_pos hpen,
      List.mem_append, List.mem_singleton, mem_rangeIcc]
    left; right
    exact ⟨h1, h2⟩
  · intro hlast hpen i h1
    simp only [tsRowPhase1, if_neg hne, if_pos h, if_pos hlast, if_neg (by omega : ¬ p.timestamp_begin_id ≤ (if sample_begin < step - 1 then seq (step - 2) else seq (step - 1))),
      List.mem_append, List.mem_singleton, mem_rangeIco]
    left; right
    exact ⟨Nat.zero_le i, h1⟩
  · intro k hk hts hbefore
    refine ⟨hscan_first k hk hts hbefore, ?_⟩
    intro i h1 h2
    simp only [tsRowPhase1, if_neg hne, if_pos h, List.mem_append]
    right
    rw [hscan_first k hk hts hbefore]
    exact mem_rangeIco.mpr ⟨h1, h2⟩
  · intro hall
    refine scanTimestamps_eq_nil p.timestamp_begin_id seq _ ?_
    intro x hx
    simp only [descPositions, List.mem_map, List.mem_range] at hx
    obtain ⟨k, hk, rfl⟩ := hx
    exact hall k hk

/-- Witness for claim C2 at a concrete trace. -/
theorem claim_C2_witness :
    ((11 ≤ (fun t => if t = 5 then 12 else 3) (6 - 1) →
      11 ≤ (if 4 < 6 - 1 then (fun t => if t = 5 then 12 else 3) (6 - 2)
            else (fun t => if t = 5 then 12 else 3) (6 - 1)) →
      ∀ i, 11 ≤ i → i ≤ 15 →
        i ∈ (tsRowPhase1 ⟨2, 10, 11, 15, 13⟩ 6 4 (fun t => if t = 5 then 12 else 3)).1) ∧
    (11 ≤ (fun t => if t = 5 then 12 else 3) (6 - 1) →
      (if 4 < 6 - 1 then (fun t => if t = 5 then 12 else 3) (6 - 2)
        else (fun t => if t = 5 then 12 else 3) (6 - 1)) < 11 →
      ∀ i, i < 2 → i ∈ (tsRowPhase1 ⟨2, 10, 11, 15, 13⟩ 6 4 (fun t => if t = 5 then 12 else 3)).1) ∧
    (∀ k, k < 6 - 4 → 11 ≤ (fun t => if t = 5 then 12 else 3) (6 - 1 - k) →
      (∀ m, m < k → (fun t => if t = 5 then 12 else 3) (6 - 1 - m) < 11) →
      scanTimestamps 11 (fun t => if t = 5 then 12 else 3) (descPositions 6 4) =
        rangeIco 11 ((fun t => if t = 5 then 12 else 3) (6 - 1 - k)) ∧
      ∀ i, 11 ≤ i → i < (fun t => if t = 5 then 12 else 3) (6 - 1 - k) →
        i ∈ (tsRowPhase1 ⟨2, 10, 11, 15, 13⟩ 6 4 (fun t => if t = 5 then 12 else 3)).1) ∧
    ((∀ k, k < 6 - 4 → (fun t => if t = 5 then 12 else 3) (6 - 1 - k) < 11) →
      scanTimestamps 11 (fun t => if t = 5 then 12 else 3) (descPositions 6 4) = [])) :=
  claim_C2 ⟨2, 10, 11, 15, 13⟩ 6 4 (fun t => if t = 5 then 12 else 3) (by decide)

/-! ## Claim C3: the timestamp-probability mass check -/

/-- Claim C3: when no row is marked the processor only contributes its
phase-1 disables; and a pair `(b, i)` is disabled by the full
`ApplyTimestampRules::apply` iff it was already accumulated (by earlier
processors or by phase 1), or `b` is a marked row, `i` is a text token
(`i < timestamp_begin_id`), and the mass check fires: the logsumexp of the
timestamp log-probabilities exceeds the best text log-probability, where the
log-probabilities come from the log-softmax of the logits masked by all
accumulated disables (so the disables are applied before the log-softmax). -/
theorem claim_C3 (p : TsParams) (step : ℕ) (sample_begin : ℕ → ℕ) (seq : ℕ → ℕ → ℕ)
    (batch_size : ℕ) (prior : List (ℕ × ℕ)) (logits : ℕ → ℕ → ℝ) (vocab_size : ℕ)
    (b i : ℕ) :
    ((tsPhase1All p step sample_begin seq batch_size).2 = [] →
      tsApply p step sample_begin seq batch_size prior logits vocab_size =
        prior ++ (tsPhase1All p step sample_begin seq batch_size).1) ∧
    ((b, i) ∈ tsApply p step sample_begin seq batch_size prior logits vocab_size ↔
      ((b, i) ∈ prior ++ (tsPhase1All p step sample_begin seq batch_size).1 ∨
        (b ∈ (tsPhase1All p step sample_begin seq batch_size).2 ∧
          i < p.timestamp_begin_id ∧
          should_sample_timestamp p
            (rowLogProb (logits b)
              (fun j => disabledIn
                (prior ++ (tsPhase1All p step sample_begin seq batch_size).1) b j)
              vocab_size)))) := by
  have hempty : (tsPhase1All p step sample_begin seq batch_size).2 = [] →
      tsApply p step sample_begin seq batch_size prior logits vocab_size =
        prior ++ (tsPhase1All p step sample_begin seq batch_size).1 := by
    intro h
    simp only [tsApply, h, List.isEmpty_nil, if_true]
  refine ⟨hempty, ?_⟩
  by_cases hch : (tsPhase1All p step sample_begin seq batch_size).2 = []
  · rw [hempty hch, hch]
    simp
  · have hcond : ¬ ((tsPhase1All p step sample_begin seq batch_size).2.isEmpty = true) := by
      intro hc
      exact hch (List.isEmpty_iff.mp hc)
    simp only [tsApply]
    rw [if_neg hcond]
    simp only [List.mem_append, List.mem_flatMap]
    constructor
    · rintro ((hp | hp) | ⟨b2, hb2, hmem⟩)
      · exact Or.inl (Or.inl hp)
      · exact Or.inl (Or.inr hp)
      · by_cases hss : should_sample_timestamp p
            (rowLogProb (logits b2)
              (fun j => disabledIn
                (prior ++ (tsPhase1All p step sample_begin seq batch_size).1) b2 j)
              vocab_size)
        · rw [if_pos hss] at hmem
          obtain ⟨x, hx, hxe⟩ := List.mem_map.mp hmem
          obtain ⟨hb, hi⟩ := Prod.mk.injEq _ _ _ _ ▸ hxe
          subst hb
          subst hi
          exact Or.inr ⟨hb2, (mem_rangeIco.mp hx).2, hss⟩
        · rw [if_neg hss] at hmem
          cases hmem
    · rintro ((h1 | h1) | ⟨hbc, hitb, hss⟩)
      · exact Or.inl (Or.inl h1)
      · exact Or.inl (Or.inr h1)
      · refine Or.inr ⟨b, hbc, ?_⟩
        rw [if_pos hss]
        exact List.mem_map.mpr ⟨i, mem_rangeIco.mpr ⟨Nat.zero_le i, hitb⟩, rfl⟩

/-! ## Claim C4: no-speech probability extraction -/

theorem softmaxProb_nonneg (x : ℕ → ℝ) (vocab_size i : ℕ) :
    0 ≤ softmaxProb x vocab_size i := by
  unfold softmaxProb
  exact div_nonneg (Real.exp_pos _).le
    (Finset.sum_nonneg fun j _ => (Real.exp_pos _).le)

theorem softmaxProb_le_one (x : ℕ → ℝ) (vocab_size i : ℕ) (h : i < vocab_size) :
    softmaxProb x vocab_size i ≤ 1 := by
  unfold softmaxProb
  have hmem : i ∈ Finset.range vocab_size := Finset.mem_range.mpr h
  have hpos : 0 < ∑ j ∈ Finset.range vocab_size, Real.exp (x j) :=
    Finset.sum_pos (fun j _ => Real.exp_pos _) ⟨i, hmem⟩
  rw [div_le_one hpos]
  exact Finset.single_le_sum (fun j _ => (Real.exp_pos (x j)).le) hmem

/-- Claim C4: with `return_no_speech_prob` on, batch row `i` receives the
softmax probability of `no_speech_id` at the SOT-step decoder logits, whether
SOT is the last prompt token (deferred capture of beam row `i * beam_size` at
step 0) or not (eager extraction from the prefill logits at column
`sot_index`); the value lies in `[0, 1]`; and the deferred processor never
modifies the logits and only captures on step 0.  The hypothesis `hagree`
states that the decode loop's step-0 logits for beam row `i * beam_size`
coincide with the decoder's SOT-step logits for batch row `i`, which holds
because with `sot_is_start_token` the decode loop starts exactly at the SOT
step and all beams of a batch item start identical. -/
theorem claim_C4 (sot_is_start_token : Bool) (sot_logits step0_logits : ℕ → ℕ → ℝ)
    (vocab_size no_speech_id batch_size beam_size i : ℕ)
    (hns : no_speech_id < vocab_size) (hbeam : 1 ≤ beam_size) (hi : i < batch_size)
    (hagree : step0_logits (i * beam_size) = sot_logits i) :
    (generateNoSpeechProbs true sot_is_start_token sot_logits step0_logits
        vocab_size no_speech_id batch_size beam_size).length = batch_size ∧
    (generateNoSpeechProbs true sot_is_start_token sot_logits step0_logits
        vocab_size no_speech_id batch_size beam_size).getD i 0 =
      softmaxProb (sot_logits i) vocab_size no_speech_id ∧
    0 ≤ (generateNoSpeechProbs true sot_is_start_token sot_logits step0_logits
        vocab_size no_speech_id batch_size beam_size).getD i 0 ∧
    (generateNoSpeechProbs true sot_is_start_token sot_logits step0_logits
        vocab_size no_speech_id batch_size beam_size).getD i 0 ≤ 1 ∧
    (∀ (st : List ℝ) (logits2 : ℕ → ℕ → ℝ) (num_rows : ℕ),
      (getNoSpeechProbsApply no_speech_id vocab_size 0 logits2 num_rows batch_size st).2 =
        logits2) ∧
    (∀ (s : ℕ) (st : List ℝ) (logits2 : ℕ → ℕ → ℝ) (num_rows : ℕ), s ≠ 0 →
      getNoSpeechProbsApply no_speech_id vocab_size s logits2 num_rows batch_size st =
        (st, logits2)) := by
  have hB : 0 < batch_size := by omega
  have hval : (generateNoSpeechProbs true sot_is_start_token sot_logits step0_logits
      vocab_size no_speech_id batch_size beam_size).getD i 0 =
      softmaxProb (sot_logits i) vocab_size no_speech_id := by
    cases sot_is_start_token with
    | false =>
      simp only [generateNoSpeechProbs, if_true, if_false, Bool.false_eq_true,
        get_no_speech_probs_from_logits]
      exact getD_map_range _ _ hi
    | true =>
      simp only [generateNoSpeechProbs, if_true, getNoSpeechProbsApply,
        get_no_speech_probs_from_logits]
      rw [getD_map_range _ _ hi]
      have hdiv : batch_size * beam_size / batch_size = beam_size :=
        Nat.mul_div_cancel_left beam_size hB
      rw [hdiv]
      have hlt : i * beam_size < batch_size * beam_size := by
        have := Nat.mul_lt_mul_of_lt_of_le hi (le_refl beam_size) (by omega)
        omega
      rw [getD_map_range _ _ hlt, hagree]
  have hlen : (generateNoSpeechProbs true sot_is_start_token sot_logits step0_logits
      vocab_size no_speech_id batch_size beam_size).length = batch_size := by
    cases sot_is_start_token with
    | false =>
      simp [generateNoSpeechProbs, get_no_speech_probs_from_logits]
    | true =>
      simp [generateNoSpeechProbs, getNoSpeechProbsApply, get_no_speech_probs_from_logits]
  refine ⟨hlen, hval, ?_, ?_, ?_, ?_⟩
  · rw [hval]; exact softmaxProb_nonneg _ _ _
  · rw [hval]; exact softmaxProb_le_one _ _ _ hns
  · intro st logits2 num_rows
    simp [getNoSpeechProbsApply]
  · intro s st logits2 num_rows hs
    simp [getNoSpeechProbsApply, hs]

/-- Witness for claim C4 at concrete inputs (both logits functions constantly
zero, one batch row, beam size one). -/
theorem claim_C4_witness :
    (generateNoSpeechProbs true true (fun _ _ => (0 : ℝ)) (fun _ _ => (0 : ℝ))
        1 0 1 1).length = 1 ∧
    (generateNoSpeechProbs true true (fun _ _ => (0 : ℝ)) (fun _ _ => (0 : ℝ))
        1 0 1 1).getD 0 0 = softmaxProb ((fun (_ : ℕ) (_ : ℕ) => (0 : ℝ)) 0) 1 0 ∧
    0 ≤ (generateNoSpeechProbs true true (fun _ _ => (0 : ℝ)) (fun _ _ => (0 : ℝ))
        1 0 1 1).getD 0 0 ∧
    (generateNoSpeechProbs true true (fun _ _ => (0 : ℝ)) (fun _ _ => (0 : ℝ))
        1 0 1 1).getD 0 0 ≤ 1 ∧
    (∀ (st : List ℝ) (logits2 : ℕ → ℕ → ℝ) (num_rows : ℕ),
      (getNoSpeechProbsApply 0 1 0 logits2 num_rows 1 st).2 = logits2) ∧
    (∀ (s : ℕ) (st : List ℝ) (logits2 : ℕ → ℕ → ℝ) (num_rows : ℕ), s ≠ 0 →
      getNoSpeechProbsApply 0 1 s logits2 num_rows 1 st = (st, logits2)) :=
  claim_C4 true (fun _ _ => 0) (fun _ _ => 0) 1 0 1 1 0
    (by decide) (by decide) (by decide) rfl

/-! ## Claim C6: the prefill / start-token split -/

theorem getD_map {α β : Type} (f : α → β) (l : List α) (i : ℕ) (d : β) (d2 : α)
    (h : i < l.length) : (l.map f).getD i d = f (l.getD i d2) := by
  rw [List.getD_eq_getElem?_getD, List.getElem?_map, List.getD_eq_getElem?_getD,
    List.getElem?_eq_getElem h]
  rfl

/-- Claim C6: when `prompt_length == 1` there is no prefill, the start tokens
are the full prompts and decoding starts at step 0; otherwise row `i` is
split into the prefix `prompts[i][0 … prompt_length − 2]` (fed to the decoder
prefill) and the start tokens `prompts[i][prompt_length − 1 …]`, and the
start step equals the prefix length `prompt_length − 1`. -/
theorem claim_C6 (prompts : List (List ℕ)) (prompt_length i : ℕ)
    (hi : i < prompts.length)
    (hlen : prompt_length ≤ (prompts.getD i []).length) :
    (prompt_length = 1 →
      prefillSplit prompts prompt_length = ([], prompts, 0)) ∧
    (prompt_length ≠ 1 →
      (prefillSplit prompts prompt_length).1.getD i [] =
        (prompts.getD i []).take (prompt_length - 1) ∧
      (prefillSplit prompts prompt_length).2.1.getD i [] =
        (prompts.getD i []).drop (prompt_length - 1) ∧
      (prefillSplit prompts prompt_length).2.2 = prompt_length - 1 ∧
      ((prefillSplit prompts prompt_length).1.getD i []).length = prompt_length - 1 ∧
      (prefillSplit prompts prompt_length).1.getD i [] ++
        (prefillSplit prompts prompt_length).2.1.getD i [] = prompts.getD i []) := by
  constructor
  · intro h
    simp [prefillSplit, h]
  · intro h
    simp only [prefillSplit, if_neg h]
    refine ⟨getD_map _ _ _ _ [] hi, getD_map _ _ _ _ [] hi, by trivial, ?_, ?_⟩
    · rw [getD_map (fun p => List.take (prompt_length - 1) p) prompts i [] [] hi,
        List.length_take]
      have := hlen
      omega
    · rw [getD_map (fun p => List.take (prompt_length - 1) p) prompts i [] [] hi,
        getD_map (fun p => List.drop (prompt_length - 1) p) prompts i [] [] hi]
      exact List.take_append_drop _ _

/-- Witness for claim C6 at a concrete batch. -/
theorem claim_C6_witness :
    (3 = 1 → prefillSplit [[5, 6, 9, 9]] 3 = ([], [[5, 6, 9, 9]], 0)) ∧
    (3 ≠ 1 →
      (prefillSplit [[5, 6, 9, 9]] 3).1.getD 0 [] =
        (([[5, 6, 9, 9]] : List (List ℕ)).getD 0 []).take (3 - 1) ∧
      (prefillSplit [[5, 6, 9, 9]] 3).2.1.getD 0 [] =
        (([[5, 6, 9, 9]] : List (List ℕ)).getD 0 []).drop (3 - 1) ∧
      (prefillSplit [[5, 6, 9, 9]] 3).2.2 = 3 - 1 ∧
      ((prefillSplit [[5, 6, 9, 9]] 3).1.getD 0 []).length = 3 - 1 ∧
      (prefillSplit [[5, 6, 9, 9]] 3).1.getD 0 [] ++
        (prefillSplit [[5, 6, 9, 9]] 3).2.1.getD 0 [] =
        ([[5, 6, 9, 9]] : List (List ℕ)).getD 0 []) :=
  claim_C6 [[5, 6, 9, 9]] 3 0 (by decide) (by decide)

/-! ## Claim C7: language detection -/

/-- Claim C7: `detect_language` fails with a runtime error iff the model is
not multilingual (vocabulary size 51865); on a multilingual model it returns
one row per batch item, each row holding exactly one
`(token string, probability)` pair per `lang_ids` entry, sorted by
probability descending, with probabilities given by softmax over the gathered
`lang_ids` columns of the single-step decoder logits. -/
theorem claim_C7 (vocab_size : ℕ) (lang_ids : List ℕ) (to_token : ℕ → String)
    (logits : ℕ → ℕ → ℝ) (batch_size i : ℕ) (hi : i < batch_size) :
    (vocab_size ≠ 51865 →
      detect_language_run vocab_size lang_ids to_token logits batch_size =
        .error "detect_language can only be called on multilingual models") ∧
    (vocab_size = 51865 →
      ∃ rows, detect_language_run vocab_size lang_ids to_token logits batch_size = .ok rows ∧
        rows.length = batch_size ∧
        (rows.getD i []).Perm ((List.range lang_ids.length).map
          (fun j => (to_token (lang_ids.getD j 0), whisperLangProbs logits lang_ids i j))) ∧
        List.Sorted (fun a b : String × ℝ => b.2 ≤ a.2) (rows.getD i []) ∧
        ∀ j, whisperLangProbs logits lang_ids i j =
          softmaxProb (fun k => logits i (lang_ids.getD k 0)) lang_ids.length j) := by
  constructor
  · intro h
    have hM : is_multilingual vocab_size = false := by
      simp [is_multilingual, h]
    simp [detect_language_run, detect_language, hM]
  · intro h
    have hM : is_multilingual vocab_size = true := by
      simp [is_multilingual, h]
    refine ⟨(List.range batch_size).map (fun r =>
      ((List.range lang_ids.length).map
        (fun j => (to_token (lang_ids.getD j 0), whisperLangProbs logits lang_ids r j))).mergeSort
        (fun a b => decide (b.2 ≤ a.2))), ?_, ?_, ?_, ?_, ?_⟩
    · simp [detect_language_run, detect_language, hM]
    · simp
    · rw [getD_map_range _ _ hi]
      exact List.mergeSort_perm _ _
    · rw [getD_map_range _ _ hi]
      have hs := @List.sorted_mergeSort (String × ℝ)
        (fun a b : String × ℝ => decide (b.2 ≤ a.2))
        (fun a b c hab hbc => by
          simp only [decide_eq_true_eq] at *
          exact le_trans hbc hab)
        (fun a b => by
          simp only [Bool.or_eq_true, decide_eq_true_eq]
          exact le_total b.2 a.2)
        ((List.range lang_ids.length).map
          (fun j => (to_token (lang_ids.getD j 0), whisperLangProbs logits lang_ids i j)))
      exact hs.imp (fun hab => of_decide_eq_true hab)
    · intro j
      rfl

/-- Witness for claim C7 at concrete inputs. -/
theorem claim_C7_witness :
    (51865 ≠ 51865 →
      detect_language_run 51865 [3, 1] (fun n => toString n) (fun _ _ => (0 : ℝ)) 1 =
        .error "detect_language can only be called on multilingual models") ∧
    (51865 = 51865 →
      ∃ rows, detect_language_run 51865 [3, 1] (fun n => toString n) (fun _ _ => (0 : ℝ)) 1 =
          .ok rows ∧
        rows.length = 1 ∧
        (rows.getD 0 []).Perm ((List.range ([3, 1] : List ℕ).length).map
          (fun j => (toString (([3, 1] : List ℕ).getD j 0),
            whisperLangProbs (fun _ _ => (0 : ℝ)) [3, 1] 0 j))) ∧
        List.Sorted (fun a b : String × ℝ => b.2 ≤ a.2) (rows.getD 0 []) ∧
        ∀ j, whisperLangProbs (fun _ _ => (0 : ℝ)) [3, 1] 0 j =
          softmaxProb (fun k => (fun _ _ => (0 : ℝ)) 0 (([3, 1] : List ℕ).getD k 0))
            ([3, 1] : List ℕ).length j) :=
  claim_C7 51865 [3, 1] (fun n => toString n) (fun _ _ => 0) 1 0 (by decide)

/-! ## Claim C8: expansion of `suppress_tokens` -/

/-- Counterexample to claim C8 as stated: the code copies the non-negative
ids, not only the positive ones.  With `suppress_tokens = [0]` the id `0` is
pushed into `disable_ids` although it is not positive. -/
theorem claim_C8_counterexample :
    expandSuppressTokens [0] [] = [0] ∧
      ¬ (∀ id ∈ expandSuppressTokens [0] [], 0 < id) := by
  constructor
  · rfl
  · intro h
    have h0 := h 0 (by rw [(by rfl : expandSuppressTokens [0] [] = [0])]; exact
      List.mem_singleton.mpr rfl)
    omega

theorem expandSuppressTokens_eq_flatMap (suppress config : List ℤ) :
    expandSuppressTokens suppress config =
      suppress.flatMap (fun id =>
        if 0 ≤ id then [id] else if id = -1 then config else []) := by
  have main : ∀ (l : List ℤ) (acc : List ℤ),
      l.foldl (fun acc id =>
        if 0 ≤ id then acc ++ [id]
        else if id = -1 then acc ++ config
        else acc) acc =
      acc ++ l.flatMap (fun id =>
        if 0 ≤ id then [id] else if id = -1 then config else []) := by
    intro l
    induction l with
    | nil => intro acc; simp
    | cons x rest ih =>
      intro acc
      simp only [List.foldl_cons, List.flatMap_cons]
      by_cases h0 : 0 ≤ x
      · rw [if_pos h0, if_pos h0, ih, List.append_assoc]
      · rw [if_neg h0, if_neg h0]
        by_cases h1 : x = -1
        · rw [if_pos h1, if_pos h1, ih, List.append_assoc]
        · rw [if_neg h1, if_neg h1, ih]
          simp
  exact main suppress []

/-- Claim C8 (amended): exactly the non-negative ids of `suppress_tokens` are
copied into `disable_ids`, and each occurrence of the sentinel `−1`
additionally appends the model-config `suppress_ids`; no other ids are added
(negative values other than `−1` contribute nothing). -/
theorem claim_C8 (suppress config : List ℤ) (x : ℤ) :
    expandSuppressTokens suppress config =
      suppress.flatMap (fun id =>
        if 0 ≤ id then [id] else if id = -1 then config else []) ∧
    (x ∈ expandSuppressTokens suppress config ↔
      ((x ∈ suppress ∧ 0 ≤ x) ∨ (-1 ∈ suppress ∧ x ∈ config))) := by
  refine ⟨expandSuppressTokens_eq_flatMap suppress config, ?_⟩
  rw [expandSuppressTokens_eq_flatMap suppress config]
  rw [List.mem_flatMap]
  constructor
  · rintro ⟨a, ha, hx⟩
    by_cases h0 : 0 ≤ a
    · rw [if_pos h0] at hx
      rw [List.mem_singleton.mp hx]
      exact Or.inl ⟨ha, h0⟩
    · rw [if_neg h0] at hx
      by_cases h1 : a = -1
      · rw [if_pos h1] at hx
        exact Or.inr ⟨h1 ▸ ha, hx⟩
      · rw [if_neg h1] at hx
        cases hx
  · rintro (⟨hmem, h0⟩ | ⟨hmem, hx⟩)
    · exact ⟨x, hmem, by rw [if_pos h0]; exact List.mem_singleton.mpr rfl⟩
    · exact ⟨-1, hmem, by norm_num; exact hx⟩

/-! ## Claim C9: result assembly -/

/-- Counterexample to claim C9 as stated: the assembly keeps only the
per-token scores of hypothesis 0 (`result.token_scores[0]`), so a second
hypothesis does not carry its own token scores.  Concretely, with two
hypotheses whose token-score lists are `[5]` and `[7]`, the assembled result
holds the single list `[5]`. -/
theorem claim_C9_counterexample :
    ((assembleResults () (fun _ => "t") false []
        [{ hypotheses := [[1], [2]], scores := [0, 0], token_scores := [[5], [7]],
           attention := () }]).getD 0
      { sequences := [], sequences_ids := [], scores := [], token_scores := [],
        attention := (), no_speech_prob := 0 }).token_scores = [5] ∧
    (([5] : List ℝ) ≠ [7]) ∧
    ({ hypotheses := [[1], [2]], scores := [0, 0], token_scores := [[5], [7]],
       attention := () : DecodingResultM Unit }).token_scores.getD 1 [] = [7] := by
  refine ⟨?_, ?_, rfl⟩
  · simp [assembleResults, emptyDecodingResult]
  · intro h
    have h5 : (5 : ℝ) = 7 := by
      have := List.cons.injEq (5 : ℝ) [] 7 [] ▸ h
      exact (List.cons.inj h).1
    norm_num at h5

/-- Claim C9 (amended): result `i` is assembled from decoding result `i`
(batch order preserved); its `sequences` are the detokenization of its
`sequences_ids` hypotheses; it carries the per-hypothesis aggregate scores,
the attention, the per-token scores of the first hypothesis only, and
`no_speech_prob[i]` iff `return_no_speech_prob` is set (0 otherwise). -/
theorem claim_C9 {A : Type} (a : A) (to_token : ℕ → String) (return_no_speech_prob : Bool)
    (no_speech_probs : List ℝ) (results : List (DecodingResultM A)) (i : ℕ)
    (d : WhisperGenerationResultM A) (hi : i < results.length) :
    (assembleResults a to_token return_no_speech_prob no_speech_probs results).length =
      results.length ∧
    ((assembleResults a to_token return_no_speech_prob no_speech_probs results).getD i d).sequences =
      (results.getD i (emptyDecodingResult A a)).hypotheses.map (List.map to_token) ∧
    ((assembleResults a to_token return_no_speech_prob no_speech_probs results).getD i d).sequences_ids =
      (results.getD i (emptyDecodingResult A a)).hypotheses ∧
    ((assembleResults a to_token return_no_speech_prob no_speech_probs results).getD i d).scores =
      (results.getD i (emptyDecodingResult A a)).scores ∧
    ((assembleResults a to_token return_no_speech_prob no_speech_probs results).getD i d).token_scores =
      (results.getD i (emptyDecodingResult A a)).token_scores.getD 0 [] ∧
    ((assembleResults a to_token return_no_speech_prob no_speech_probs results).getD i d).attention =
      (results.getD i (emptyDecodingResult A a)).attention ∧
    ((assembleResults a to_token return_no_speech_prob no_speech_probs results).getD i d).no_speech_prob =
      (if return_no_speech_prob then no_speech_probs.getD i 0 else 0) := by
  have hval : (assembleResults a to_token return_no_speech_prob no_speech_probs results).getD i d =
      (let r := results.getD i (emptyDecodingResult A a)
       { sequences := r.hypotheses.map (List.map to_token)
         sequences_ids := r.hypotheses
         scores := r.scores
         token_scores := r.token_scores.getD 0 []
         attention := r.attention
         no_speech_prob := if return_no_speech_prob then no_speech_probs.getD i 0 else 0 }) := by
    unfold assembleResults
    exact getD_map_range _ _ hi
  refine ⟨by simp [assembleResults], ?_, ?_, ?_, ?_, ?_, ?_⟩ <;> rw [hval]

/-- Witness for claim C9 at a concrete decoding result. -/
theorem claim_C9_witness :
    (assembleResults () (fun _ => "t") true [1/2] [sampleDecodingResult]).length =
      [sampleDecodingResult].length ∧
    ((assembleResults () (fun _ => "t") true [1/2] [sampleDecodingResult]).getD 0
        sampleGenResult).sequences =
      ([sampleDecodingResult].getD 0 (emptyDecodingResult Unit ())).hypotheses.map
        (List.map (fun _ => "t")) ∧
    ((assembleResults () (fun _ => "t") true [1/2] [sampleDecodingResult]).getD 0
        sampleGenResult).sequences_ids =
      ([sampleDecodingResult].getD 0 (emptyDecodingResult Unit ())).hypotheses ∧
    ((assembleResults () (fun _ => "t") true [1/2] [sampleDecodingResult]).getD 0
        sampleGenResult).scores =
      ([sampleDecodingResult].getD 0 (emptyDecodingResult Unit ())).scores ∧
    ((assembleResults () (fun _ => "t") true [1/2] [sampleDecodingResult]).getD 0
        sampleGenResult).token_scores =
      ([sampleDecodingResult].getD 0 (emptyDecodingResult Unit ())).token_scores.getD 0 [] ∧
    ((assembleResults () (fun _ => "t") true [1/2] [sampleDecodingResult]).getD 0
        sampleGenResult).attention =
      ([sampleDecodingResult].getD 0 (emptyDecodingResult Unit ())).attention ∧
    ((assembleResults () (fun _ => "t") true [1/2] [sampleDecodingResult]).getD 0
        sampleGenResult).no_speech_prob =
      (if true then ([1/2] : List ℝ).getD 0 0 else 0) :=
  claim_C9 () (fun _ => "t") true [1/2] [sampleDecodingResult] 0 sampleGenResult (by simp)

end Whisper
